import Mathlib

/-!
# Verification of the moenet-dn42-agent reconciliation core

This file gives a shallow embedding of the pure computational core of the
per-node network fabric agent (listen-port derivation, mesh port layout,
latency tiering, probe EWMA updates, the state store, the debounced
routing-daemon reloader, loopback address computation, blacklist
serialization, and the startup identity check) and proves the spec's
claims about it.

Python floats that only ever hold exact decimal measurements and EWMA
coefficients are modelled as rationals; machine integers as `Nat`/`Int`;
fallible operations as `Option`.
-/

namespace MoenetAgent

/-- Python `str` values under character-level manipulation are modelled as
lists of characters. -/
abbrev PyStr := List Char

/-- The decimal digit characters, `digitChar d` for `d < 10`. -/
def digitChar (d : ℕ) : Char :=
  match d with
  | 0 => '0' | 1 => '1' | 2 => '2' | 3 => '3' | 4 => '4'
  | 5 => '5' | 6 => '6' | 7 => '7' | 8 => '8' | _ => '9'

/-- Decimal rendering worker; `fuel` bounds the recursion depth and any
`fuel ≥ n` yields every digit. -/
def natDecimalAux : ℕ → ℕ → PyStr
  | _, 0 => []
  | 0, _ => []
  | fuel + 1, n => natDecimalAux fuel (n / 10) ++ [digitChar (n % 10)]

/-- Python `str(n)` for a natural number: decimal digits, `"0"` for 0. -/
def natDecimal (n : ℕ) : PyStr :=
  if n = 0 then ['0'] else natDecimalAux n n

/-- Python `int(s)` on a string of decimal digits. -/
def decimalValue (s : PyStr) : ℕ :=
  s.foldl (fun acc c => 10 * acc + (c.toNat - 48)) 0

/-- Python `s.rstrip(c)`. -/
def pyRstrip (c : Char) (s : PyStr) : PyStr :=
  (s.reverse.dropWhile (· = c)).reverse

/-! ## Loopback address computation

From `src/executor/loopback.py`, `LoopbackExecutor.setup_loopback`.  The
function validates `node_id` against the IPv4 prefix length
(`max_host_id = 2^(32 - prefix_len) - 2`; out of range returns `False`,
modelled `none`) and then passes each entry of its `addresses` list to
`_add_address`:

```python
addresses = [
    (self.dn42_ipv4_prefix, "IPv4 prefix"),
    (f"{ipv4_node}/32", "IPv4 node"),
    # Only the /128 loopback, NOT the /48 prefix
    (f"{ipv6_node}/128", "IPv6 node"),
]
```

The returned list is exactly the sequence of addresses installed on the
dummy interface. -/
def setupLoopbackAddresses (ipv4Pfx ipv6Pfx : PyStr) (nodeId : ℕ) :
    Option (List PyStr) :=
  let prefixLen := decimalValue ((ipv4Pfx.splitOn '/').getD 1 [])
  let maxHostId := 2 ^ (32 - prefixLen) - 2
  if nodeId < 1 ∨ nodeId > maxHostId then
    none
  else
    let ipv4Base := (ipv4Pfx.splitOn '/').getD 0 []
    let ipv4Parts := ipv4Base.splitOn '.'
    let ipv4Node := List.intercalate ['.'] ipv4Parts.dropLast ++ '.' :: natDecimal nodeId
    let ipv6Base := pyRstrip ':' ((ipv6Pfx.splitOn '/').getD 0 [])
    let ipv6Node := ipv6Base ++ ':' :: ':' :: natDecimal nodeId
    some [ipv4Pfx, ipv4Node ++ ['/', '3', '2'], ipv6Node ++ ['/', '1', '2', '8']]

/-! ## Listen-port derivation

From `src/daemon/sync.py`, `SyncDaemon._calculate_listen_port` (identical
code appears in `src/workers/sync_daemon.py`):

```python
if 4242420000 <= remote_as <= 4242429999:
    return 30000 + (remote_as % 10000)
elif 4201270000 <= remote_as <= 4201279999:
    return 40000 + (remote_as % 10000)
else:
    return 50000 + (remote_as % 10000)
```
-/

def calculateListenPort (remoteAs : ℕ) : ℕ :=
  if 4242420000 ≤ remoteAs ∧ remoteAs ≤ 4242429999 then
    30000 + remoteAs % 10000
  else if 4201270000 ≤ remoteAs ∧ remoteAs ≤ 4201279999 then
    40000 + remoteAs % 10000
  else
    50000 + remoteAs % 10000

/-- The spec's words for `ebgp_listen_port(asn)`: "piecewise by ASN range:
private range A → `30000 + (asn mod 10000)`; private range B →
`40000 + (asn mod 10000)`; else `50000 + (asn mod 10000)`", where range A
is [4242420000, 4242429999] and range B is [4201270000, 4201279999]. -/
def ebgpListenPortSpec (asn : ℕ) : ℕ :=
  if 4242420000 ≤ asn ∧ asn ≤ 4242429999 then
    30000 + asn % 10000
  else if 4201270000 ≤ asn ∧ asn ≤ 4201279999 then
    40000 + asn % 10000
  else
    50000 + asn % 10000

/-! ## Peer add/remove firewall ports

From `src/daemon/sync.py`, `SyncDaemon._add_peer` and
`SyncDaemon._remove_peer`.  A peer is a JSON dictionary; the fields these
two methods consult are the ASN, the optional top-level `listen_port`, and
the tunnel type.  Python truthiness of `peer.get("listen_port") or
self._calculate_listen_port(asn)` is modelled explicitly: a missing key or
a value `0` falls back to the derived port. -/

structure PeerPortView where
  asn : ℕ
  listenPort : Option ℕ
  tunnelType : Option String
  deriving DecidableEq, Repr

/-- Port used by `_add_peer`:
`listen_port = peer.get("listen_port") or self._calculate_listen_port(asn)`. -/
def addPeerListenPort (peer : PeerPortView) : ℕ :=
  match peer.listenPort with
  | some p => if p ≠ 0 then p else calculateListenPort peer.asn
  | none => calculateListenPort peer.asn

/-- The firewall port `_add_peer` opens: `self.firewall.allow_port(listen_port)`
is only reached when the tunnel type is `"wireguard"`. -/
def addPeerFirewallPort (peer : PeerPortView) : Option ℕ :=
  if peer.tunnelType = some "wireguard" then some (addPeerListenPort peer) else none

/-- The firewall port `_remove_peer` closes:
`listen_port = self._calculate_listen_port(asn); self.firewall.remove_port(listen_port)`.
It is derived from the ASN alone; the supplied `listen_port` is unavailable there. -/
def removePeerFirewallPort (asn : ℕ) : ℕ :=
  calculateListenPort asn

/-! ## Latency tiering

From `src/services/community_constants.py` (the module is re-exported as
`community.constants`).  RTTs are modelled as rationals. -/

/-- `LATENCY_THRESHOLDS = [2.7, 7.3, 20, 55, 148, 403, 1097, 2981]` -/
def latencyThresholds : List ℚ := [27/10, 73/10, 20, 55, 148, 403, 1097, 2981]

/-- The enumerated scan in `latency_to_tier`:
`for tier, threshold in enumerate(LATENCY_THRESHOLDS): if rtt_ms < threshold: return tier`. -/
def latencyToTierFrom (rtt : ℚ) : ℕ → List ℚ → ℕ
  | _, [] => 8
  | tier, t :: ts => if rtt < t then tier else latencyToTierFrom rtt (tier + 1) ts

/-- `latency_to_tier(rtt_ms)`: scan the threshold table, return the index of
the first threshold exceeding the RTT, else 8. -/
def latency_to_tier (rtt : ℚ) : ℕ :=
  latencyToTierFrom rtt 0 latencyThresholds

/-- The spec's words: "the tier is the index of the first threshold strictly
greater than the RTT" over the fixed table, "and any RTT ≥ 2981 ms maps to
tier 8".  Written as the explicit decision ladder over the table. -/
def latencyTierSpec (rtt : ℚ) : ℕ :=
  if rtt < 27/10 then 0
  else if rtt < 73/10 then 1
  else if rtt < 20 then 2
  else if rtt < 55 then 3
  else if rtt < 148 then 4
  else if rtt < 403 then 5
  else if rtt < 1097 then 6
  else if rtt < 2981 then 7
  else 8

/-! ## Mesh port layout

From `src/daemon/mesh_sync.py`, `MeshSync.sync_mesh`:

```python
listen_port = get_mesh_listen_port(peer_node_id, MESH_BASE_PORT)
peer_port = get_mesh_listen_port(self.node_id, MESH_BASE_PORT)
```

`listen_port` is the local listen port of the tunnel to that peer;
`peer_port` is the remote port the rendered config's endpoint points at. -/

/-- Modelled from the spec: `renderer/wg_mesh.get_mesh_listen_port` is not
among the sources (only its caller `MeshSync.sync_mesh` is).  The spec says
"each side listens on `base_port + peer_node_id`", and the caller's comment
reads "Each interface listens on: base_port + peer_node_id". -/
def get_mesh_listen_port (nodeId basePort : ℕ) : ℕ :=
  basePort + nodeId

/-- `MESH_BASE_PORT = 51820` -/
def meshBasePort : ℕ := 51820

/-- On node `a`, the listen port of the tunnel interface to peer `b`
(`sync_mesh`: `get_mesh_listen_port(peer_node_id, MESH_BASE_PORT)`). -/
def meshListenPort (_a b : ℕ) : ℕ :=
  get_mesh_listen_port b meshBasePort

/-- On node `a`, the remote port the tunnel to peer `b` connects at
(`sync_mesh`: `peer_port = get_mesh_listen_port(self.node_id, MESH_BASE_PORT)`
with `self.node_id = a`). -/
def meshConnectPort (a _b : ℕ) : ℕ :=
  get_mesh_listen_port a meshBasePort

/-! ### Theorems -/

/-- C4: the eBGP listen-port function is total and deterministic over 32-bit
ASNs and follows the spec's piecewise formula: on [4242420000, 4242429999]
it returns `30000 + asn % 10000`, on [4201270000, 4201279999] it returns
`40000 + asn % 10000`, and `50000 + asn % 10000` otherwise; the same ASN
always yields the same port. -/
theorem ebgp_listen_port_piecewise :
    (∀ asn : ℕ, asn < 2 ^ 32 → calculateListenPort asn = ebgpListenPortSpec asn) ∧
    (∀ asn asn' : ℕ, asn = asn' → calculateListenPort asn = calculateListenPort asn') := by
  constructor
  · intro asn _
    rfl
  · intro asn asn' h
    rw [h]

/-- Witness for `ebgp_listen_port_piecewise` at ASN 4242420337. -/
theorem ebgp_listen_port_piecewise_witness :
    calculateListenPort 4242420337 = ebgpListenPortSpec 4242420337 ∧
    calculateListenPort 4242420337 = 30337 :=
  ⟨ebgp_listen_port_piecewise.1 4242420337 (by norm_num), by decide⟩

/-- C10: when a peer's spec carries an explicit nonzero `listen_port`,
`_add_peer` opens the firewall at the supplied port, while `_remove_peer`
always closes the ASN-derived port; thus whenever the supplied port differs
from the derived one, the rule opened on add is not the rule closed on
remove. -/
theorem add_remove_firewall_port_asymmetry (peer : PeerPortView) (p : ℕ)
    (hp : peer.listenPort = some p) (hnz : p ≠ 0)
    (hwg : peer.tunnelType = some "wireguard") :
    addPeerFirewallPort peer = some p ∧
    removePeerFirewallPort peer.asn = calculateListenPort peer.asn ∧
    (p ≠ calculateListenPort peer.asn →
      addPeerFirewallPort peer ≠ some (removePeerFirewallPort peer.asn)) := by
  have hadd : addPeerFirewallPort peer = some p := by
    simp [addPeerFirewallPort, addPeerListenPort, hp, hnz, hwg]
  refine ⟨hadd, rfl, ?_⟩
  intro hne hcontra
  rw [hadd] at hcontra
  exact hne (by simpa [removePeerFirewallPort] using hcontra)

/-- Witness for `add_remove_firewall_port_asymmetry`: a peer of ASN
4242420337 supplying port 51820 (the derived port would be 30337). -/
theorem add_remove_firewall_port_asymmetry_witness :
    addPeerFirewallPort ⟨4242420337, some 51820, some "wireguard"⟩ = some 51820 ∧
    removePeerFirewallPort 4242420337 = calculateListenPort 4242420337 ∧
    (51820 ≠ calculateListenPort 4242420337 →
      addPeerFirewallPort ⟨4242420337, some 51820, some "wireguard"⟩ ≠
        some (removePeerFirewallPort 4242420337)) :=
  add_remove_firewall_port_asymmetry ⟨4242420337, some 51820, some "wireguard"⟩
    51820 rfl (by decide) rfl

/-- C5: mesh port symmetry.  The port node `a` listens on for its tunnel to
peer `b` equals the port node `b` directs its endpoint connection at for
peer `a` (both `MESH_BASE_PORT + b`), and symmetrically node `a`'s connect
port for `b` equals node `b`'s listen port for `a`
(both `MESH_BASE_PORT + a`). -/
theorem mesh_port_symmetry (a b : ℕ) :
    meshListenPort a b = meshConnectPort b a ∧
    meshConnectPort a b = meshListenPort b a ∧
    meshListenPort a b = meshBasePort + b ∧
    meshConnectPort a b = meshBasePort + a :=
  ⟨rfl, rfl, rfl, rfl⟩

/-! ## Probe EWMA state update

From `src/community/latency_probe.py`.  `PeerInfo` mirrors the dataclass of
the same name; `processProbeResult` is the successful-result branch of
`LatencyProbe._probe_all_peers` (lines 151-179) acting on one peer:

```python
old_tier = peer.last_tier
if peer.last_rtt is not None:
    peer.last_rtt = self.ewma_alpha * result.rtt_ms + (1 - self.ewma_alpha) * peer.last_rtt
else:
    peer.last_rtt = result.rtt_ms
peer.last_tier = latency_to_tier(peer.last_rtt)
peer.probe_count += 1
if old_tier != peer.last_tier and self._update_callback:
    self._update_callback(result.asn, peer.last_tier, peer.last_rtt)
```
-/

structure PeerInfo where
  asn : ℕ
  endpoint : String
  lastRtt : Option ℚ
  lastTier : Option ℕ
  probeCount : ℕ
  failCount : ℕ
  deriving DecidableEq, Repr

/-- `ewma_alpha = 0.3` (constructor default of `LatencyProbe`). -/
def ewmaAlpha : ℚ := 3/10

/-- Arguments of one `_update_callback(asn, tier, rtt_ms)` invocation. -/
structure CallbackInvocation where
  asn : ℕ
  tier : ℕ
  rttMs : ℚ
  deriving DecidableEq, Repr

/-- Process one successful probe result for a peer: returns the updated peer
record and the callback invocation, if one is made.  `hasCallback` models
whether `self._update_callback` is set (truthy). -/
def processProbeResult (hasCallback : Bool) (peer : PeerInfo) (measuredRtt : ℚ) :
    PeerInfo × Option CallbackInvocation :=
  let oldTier := peer.lastTier
  let newRtt :=
    match peer.lastRtt with
    | some old => ewmaAlpha * measuredRtt + (1 - ewmaAlpha) * old
    | none => measuredRtt
  let newTier := latency_to_tier newRtt
  let peer' := { peer with
    lastRtt := some newRtt
    lastTier := some newTier
    probeCount := peer.probeCount + 1 }
  let invocation :=
    if oldTier ≠ some newTier ∧ hasCallback then
      some ⟨peer.asn, newTier, newRtt⟩
    else
      none
  (peer', invocation)

/-! ## State store

From `src/state/manager.py`, `StateManager`.  The persisted document is a
JSON dictionary; the fields below mirror `_empty_state`.  Python truthiness
of `state.get("applied_config")` is what `update_applied_config` branches
on: the model's `appliedConfig = none` stands for the falsy cases (key
absent, or mapped to an empty dictionary), while `some c` stands for a
dictionary of the shape `{"peers": ...}` — which is truthy even when the
peer list inside is empty.  Peer entries themselves are opaque JSON values,
abstracted by a type parameter. -/

structure RollbackSnapshot where
  previousHash : Option String
  deriving DecidableEq, Repr

structure AppliedConfig (P : Type) where
  peers : List P
  deriving DecidableEq, Repr

structure AgentState (P : Type) where
  version : String
  nodeId : Option String
  configVersionHash : Option String
  appliedConfig : Option (AppliedConfig P)
  rollbackSnapshot : Option RollbackSnapshot
  deriving DecidableEq, Repr

/-- `StateManager._empty_state` (timestamps omitted):
`{"version": "2.1.0", "node_id": None, "config_version_hash": None,
"applied_config": {"peers": []}, "health_status": {}, "rollback_snapshot": None}`. -/
def emptyState (P : Type) : AgentState P :=
  { version := "2.1.0"
    nodeId := none
    configVersionHash := none
    appliedConfig := some ⟨[]⟩
    rollbackSnapshot := none }

/-- `StateManager.update_applied_config(peers, config_hash)`:

```python
state = self.load()
if state.get("applied_config"):
    state["rollback_snapshot"] = {"previous_hash": state.get("config_version_hash"), ...}
state["config_version_hash"] = config_hash
state["applied_config"] = {"peers": peers, "applied_at": ...}
```
-/
def update_applied_config {P : Type} (state : AgentState P) (peers : List P)
    (configHash : String) : AgentState P :=
  let state1 :=
    if state.appliedConfig.isSome then
      { state with rollbackSnapshot := some ⟨state.configVersionHash⟩ }
    else
      state
  { state1 with
    configVersionHash := some configHash
    appliedConfig := some ⟨peers⟩ }

/-! ## Debounced BIRD reload

From `src/services/bird.py`, `BirdExecutor` (the variant with the delayed
coalesce reload; the `src/executor/bird.py` duplicate has no coalescing and
runs `birdc configure` synchronously).  Timed-trace model over rational
seconds: `reload()` at time `t` cancels the pending timer if it has not yet
fired and schedules `_execute_reload` at `t + delay`; a pending timer whose
fire time has passed has already run `birdc configure` at that time.
`runReloadTrace` returns the times at which `birdc configure` runs, given
the ascending call times and the pending fire time. -/

def runReloadTrace (delay : ℚ) : List ℚ → Option ℚ → List ℚ
  | [], none => []
  | [], some f => [f]
  | t :: rest, none => runReloadTrace delay rest (some (t + delay))
  | t :: rest, some f =>
      if f ≤ t then f :: runReloadTrace delay rest (some (t + delay))
      else runReloadTrace delay rest (some (t + delay))

/-- `_coalesce_delay = 2.0` seconds. -/
def coalesceDelay : ℚ := 2

/-- The `birdc configure` invocation times produced by a sequence of
`reload()` calls at the given ascending times, starting with no pending
timer. -/
def birdConfigureTimes (delay : ℚ) (calls : List ℚ) : List ℚ :=
  runReloadTrace delay calls none

/-! ## Startup identity validation

From `src/main.py`, `main()`.  Identity resolution (lines 98-127) starts
from the config value and adopts the control plane's `numeric_node_id` when
registration succeeds, the field is truthy and it lies in [1, 62]; the
validation (lines 131-137) then runs `sys.exit(1)` on
`not node_id or node_id < 1 or node_id > 62`.  All kernel mutations —
`ensure_interface_up`, `setup_loopback`, `sync_mesh` (lines 147-163) — come
after the validation. -/

inductive KernelAction where
  | ensureInterfaceUp
  | setupLoopback (nodeId : ℤ)
  | meshSync
  deriving DecidableEq, Repr

/-- `regResult = none` models a failed registration or a falsy response;
`some cp` a response whose `numeric_node_id` field is `cp` (`none` when the
field is missing or null). -/
def resolveNodeId (cfgNodeId : Option ℤ) (regResult : Option (Option ℤ)) : Option ℤ :=
  match regResult with
  | some (some cp) => if cp ≠ 0 ∧ 1 ≤ cp ∧ cp ≤ 62 then some cp else cfgNodeId
  | _ => cfgNodeId

/-- `if not node_id or node_id < 1 or node_id > 62` — Python truthiness
makes `not node_id` true for both `None` and `0`. -/
def nodeIdRejected (nodeId : Option ℤ) : Bool :=
  match nodeId with
  | none => true
  | some v => decide (v = 0) || decide (v < 1) || decide (v > 62)

/-- Startup from identity resolution onward: the exit code (`some 1` when
`sys.exit(1)` runs, `none` when startup proceeds) and the kernel-state
mutations performed, in order. -/
def mainStartup (cfgNodeId : Option ℤ) (regResult : Option (Option ℤ)) :
    Option ℕ × List KernelAction :=
  let nodeId := resolveNodeId cfgNodeId regResult
  if nodeIdRejected nodeId then
    (some 1, [])
  else
    match nodeId with
    | some v => (none, [.ensureInterfaceUp, .setupLoopback v, .meshSync])
    | none => (some 1, [])

/-! ## Blacklist serialization

From `src/api/server.py`, `save_blacklist` and `load_blacklist`.
`save_blacklist` writes a BIRD policy-function file whose only bracketed
digit list is `[= * [a1, a2, ...] * =]` with the ASNs sorted ascending and
joined by `", "`; `load_blacklist` re-parses the file with the regex
`\[(\d+(?:,\s*\d+)*)\]`, splits the captured group on `','`, strips each
part and keeps the parts that satisfy `isdigit()`. -/

/-- Python `s.strip()`: drop whitespace from both ends. -/
def pyStrip (s : PyStr) : PyStr :=
  ((s.dropWhile Char.isWhitespace).reverse.dropWhile Char.isWhitespace).reverse

/-- Python `", ".join(strs)`. -/
def joinCommaSpace : List PyStr → PyStr
  | [] => []
  | [x] => x
  | x :: y :: rest => x ++ ',' :: ' ' :: joinCommaSpace (y :: rest)

/-- `", ".join(str(a) for a in sorted(asns))`. -/
def asnListChars (l : List ℕ) : PyStr :=
  joinCommaSpace (l.map natDecimal)

/-- The fixed text `save_blacklist` writes before the `return` line
(header comments plus the function header). -/
def blacklistHeader : PyStr :=
  ("# Blacklist - Managed by moenet-agent\n" ++
   "# DO NOT EDIT MANUALLY - changes will be overwritten\n" ++
   "#\n" ++
   "# This file is included by bird.conf and provides is_blacklisted()\n" ++
   "# to check if a route passes through any blacklisted ASN.\n\n" ++
   "function is_blacklisted() -> bool \x7b\n").toList

/-- The full file content written by `save_blacklist(asns)`. -/
def saveBlacklistContent (asns : Finset ℕ) : PyStr :=
  blacklistHeader ++
  (if asns = ∅ then
    "    return false;  # No ASNs in blacklist\n".toList
  else
    "    return bgp_path ~ [= * [".toList ++
      asnListChars (asns.sort (· ≤ ·)) ++
      "] * =];\n".toList) ++
  "\x7d\n".toList

/-- Continue the regex match `\[(\d+(?:,\s*\d+)*)\]` after an initial digit
run: greedily consume `,\s*\d+` repetitions, then require `]`; `acc` holds
the group captured so far and the result is the full captured group.  On
`save_blacklist` output the character after the final digit run is always
`]`, so the greedy scan coincides with the regex's backtracking
semantics. -/
def groupTail : ℕ → PyStr → PyStr → Option PyStr
  | _, acc, ']' :: _ => some acc
  | fuel + 1, acc, ',' :: rest =>
      let ws := rest.takeWhile Char.isWhitespace
      let rest1 := rest.dropWhile Char.isWhitespace
      let ds := rest1.takeWhile Char.isDigit
      let rest2 := rest1.dropWhile Char.isDigit
      if ds = [] then none
      else groupTail fuel (acc ++ ',' :: ws ++ ds) rest2
  | _, _, _ => none

/-- Try to match `\[(\d+(?:,\s*\d+)*)\]` at the start of the input. -/
def matchBracketList (fuel : ℕ) : PyStr → Option PyStr
  | '[' :: rest =>
      let ds := rest.takeWhile Char.isDigit
      let rest1 := rest.dropWhile Char.isDigit
      if ds = [] then none else groupTail fuel ds rest1
  | _ => none

/-- `re.search`: the captured group of the leftmost match of
`\[(\d+(?:,\s*\d+)*)\]`, scanning start positions left to right. -/
def searchBracketList : PyStr → Option PyStr
  | [] => none
  | c :: rest =>
      match matchBracketList (c :: rest).length (c :: rest) with
      | some g => some g
      | none => searchBracketList rest

/-- The body of the per-part loop in `load_blacklist`:
`asn = asn.strip(); if asn.isdigit(): asns.add(int(asn))`
(`isdigit()` is false on the empty string). -/
def blacklistFoldStep (s : Finset ℕ) (part : PyStr) : Finset ℕ :=
  let p := pyStrip part
  if p ≠ [] ∧ p.all Char.isDigit then insert (decimalValue p) s else s

/-- The whole of `load_blacklist` applied to file content:

```python
match = re.search(r'\[(\d+(?:,\s*\d+)*)\]', content)
if match:
    for asn in match.group(1).split(','):
        asn = asn.strip()
        if asn.isdigit():
            asns.add(int(asn))
```
-/
def loadBlacklistFromContent (content : PyStr) : Finset ℕ :=
  match searchBracketList content with
  | none => ∅
  | some g => (g.splitOn ',').foldl blacklistFoldStep ∅

/-- The separator-prefixed tail of the joined ASN list: the characters
contributed by every ASN after the first. -/
def tailChars : List ℕ → PyStr
  | [] => []
  | b :: t => ',' :: ' ' :: natDecimal b ++ tailChars t

/-- A text block is bracket-safe when no `[` in it is immediately followed
by a digit (and no `[` is its final character), so the regex
`\[(\d+(?:,\s*\d+)*)\]` cannot start a match inside it. -/
def lbracketSafe : PyStr → Bool
  | [] => true
  | ['['] => false
  | '[' :: c :: rest => !c.isDigit && lbracketSafe (c :: rest)
  | _ :: rest => lbracketSafe rest

/-! ### Decimal-rendering lemmas -/

theorem digitChar_isDigit (d : ℕ) : (digitChar d).isDigit = true := by
  unfold digitChar
  split <;> decide

theorem digitChar_toNat (d : ℕ) (h : d < 10) : (digitChar d).toNat - 48 = d := by
  interval_cases d <;> decide

theorem natDecimalAux_spec :
    ∀ fuel n, n ≤ fuel →
      (∀ c ∈ natDecimalAux fuel n, c.isDigit = true) ∧
      (n ≠ 0 → natDecimalAux fuel n ≠ []) ∧
      (∀ A : ℕ, (natDecimalAux fuel n).foldl (fun acc c => 10 * acc + (c.toNat - 48)) A
          = A * 10 ^ (natDecimalAux fuel n).length + n)
  | fuel, 0, _ => by
      cases fuel <;> simp [natDecimalAux]
  | 0, n + 1, h => by omega
  | fuel + 1, n + 1, h => by
      have hdiv : (n + 1) / 10 ≤ fuel := by
        have := Nat.div_lt_self (Nat.succ_pos n) (by norm_num : 1 < 10)
        omega
      obtain ⟨ih1, ih2, ih3⟩ := natDecimalAux_spec fuel ((n + 1) / 10) hdiv
      have hunf : natDecimalAux (fuel + 1) (n + 1)
          = natDecimalAux fuel ((n + 1) / 10) ++ [digitChar ((n + 1) % 10)] := rfl
      refine ⟨?_, ?_, ?_⟩
      · intro c hc
        rw [hunf] at hc
        rcases List.mem_append.mp hc with h1 | h2
        · exact ih1 c h1
        · rw [List.mem_singleton.mp h2]
          exact digitChar_isDigit _
      · intro _
        rw [hunf]
        simp
      · intro A
        rw [hunf, List.foldl_append, ih3 A, List.length_append]
        simp only [List.foldl_cons, List.foldl_nil, List.length_singleton]
        rw [digitChar_toNat _ (Nat.mod_lt _ (by norm_num))]
        have hmod : 10 * ((n + 1) / 10) + (n + 1) % 10 = n + 1 := Nat.div_add_mod (n + 1) 10
        set L := (natDecimalAux fuel ((n + 1) / 10)).length
        calc 10 * (A * 10 ^ L + (n + 1) / 10) + (n + 1) % 10
            = A * (10 ^ L * 10) + (10 * ((n + 1) / 10) + (n + 1) % 10) := by ring
          _ = A * 10 ^ (L + 1) + (n + 1) := by rw [hmod, pow_succ]

theorem natDecimal_digits {n : ℕ} : ∀ c ∈ natDecimal n, c.isDigit = true := by
  unfold natDecimal
  split
  · intro c hc
    rw [List.mem_singleton.mp hc]
    decide
  · exact (natDecimalAux_spec n n le_rfl).1

theorem natDecimal_ne_nil (n : ℕ) : natDecimal n ≠ [] := by
  unfold natDecimal
  split
  · simp
  · exact (natDecimalAux_spec n n le_rfl).2.1 (by assumption)

theorem decimalValue_natDecimal (n : ℕ) : decimalValue (natDecimal n) = n := by
  unfold natDecimal decimalValue
  split
  · subst n
    decide
  · simpa using (natDecimalAux_spec n n le_rfl).2.2 0

/-! ### Character-class lemmas -/

theorem isDigit_props (c : Char) (h : c.isDigit = true) :
    c ≠ ',' ∧ c ≠ '[' ∧ c ≠ ']' ∧ c.isWhitespace = false := by
  refine ⟨?_, ?_, ?_, ?_⟩
  · intro hc; subst hc; exact absurd h (by decide)
  · intro hc; subst hc; exact absurd h (by decide)
  · intro hc; subst hc; exact absurd h (by decide)
  · by_contra hw
    rw [Bool.not_eq_false] at hw
    have hcases : ((c = ' ' ∨ c = '\t') ∨ c = '\r') ∨ c = '\n' := by
      simpa [Char.isWhitespace] using hw
    rcases hcases with ((rfl | rfl) | rfl) | rfl <;> exact absurd h (by decide)

/-! ### takeWhile/dropWhile over digit runs -/

theorem takeWhile_append_all {p : Char → Bool} :
    ∀ (ds rest : PyStr), (∀ c ∈ ds, p c = true) →
      (ds ++ rest).takeWhile p = ds ++ rest.takeWhile p
  | [], rest, _ => rfl
  | d :: ds, rest, h => by
      have hd : p d = true := h d (List.mem_cons_self d ds)
      rw [List.cons_append, List.takeWhile_cons_of_pos hd,
        takeWhile_append_all ds rest (fun c hc => h c (List.mem_cons_of_mem d hc))]
      rfl

theorem dropWhile_append_all {p : Char → Bool} :
    ∀ (ds rest : PyStr), (∀ c ∈ ds, p c = true) →
      (ds ++ rest).dropWhile p = rest.dropWhile p
  | [], _, _ => rfl
  | d :: ds, rest, h => by
      have hd : p d = true := h d (List.mem_cons_self d ds)
      rw [List.cons_append, List.dropWhile_cons_of_pos hd,
        dropWhile_append_all ds rest (fun c hc => h c (List.mem_cons_of_mem d hc))]

theorem pyStrip_no_ws (l : PyStr) (h : ∀ c ∈ l, c.isWhitespace = false) :
    pyStrip l = l := by
  unfold pyStrip
  have h1 : l.dropWhile Char.isWhitespace = l := by
    cases l with
    | nil => rfl
    | cons c t => exact List.dropWhile_cons_of_neg (by simp [h c (List.mem_cons_self c t)])
  rw [h1]
  have h2 : l.reverse.dropWhile Char.isWhitespace = l.reverse := by
    cases hr : l.reverse with
    | nil => rfl
    | cons c t =>
        have hc : c ∈ l := by
          rw [← List.mem_reverse, hr]
          exact List.mem_cons_self c t
        exact List.dropWhile_cons_of_neg (by simp [h c hc])
  rw [h2, List.reverse_reverse]

theorem pyStrip_space_cons (l : PyStr) (h : ∀ c ∈ l, c.isWhitespace = false) :
    pyStrip (' ' :: l) = l := by
  have h1 : (' ' :: l).dropWhile Char.isWhitespace = l.dropWhile Char.isWhitespace :=
    List.dropWhile_cons_of_pos (by decide)
  have h2 := pyStrip_no_ws l h
  unfold pyStrip at h2 ⊢
  rw [h1]
  exact h2

theorem natDecimal_no_comma (b : ℕ) : ∀ c ∈ natDecimal b, (c == ',') = false := by
  intro c hc
  have := (isDigit_props c (natDecimal_digits c hc)).1
  simpa using this

theorem natDecimal_no_ws (b : ℕ) : ∀ c ∈ natDecimal b, c.isWhitespace = false :=
  fun c hc => (isDigit_props c (natDecimal_digits c hc)).2.2.2

theorem tailChars_length (t : List ℕ) : t.length ≤ (tailChars t).length := by
  induction t with
  | nil => simp [tailChars]
  | cons b t ih =>
      simp only [tailChars, List.length_cons, List.length_append]
      omega

theorem takeWhile_digit_tail_close (t : List ℕ) (post : PyStr) :
    (tailChars t ++ ']' :: post).takeWhile Char.isDigit = [] ∧
    (tailChars t ++ ']' :: post).dropWhile Char.isDigit = tailChars t ++ ']' :: post := by
  cases t with
  | nil =>
      exact ⟨List.takeWhile_cons_of_neg (by decide), List.dropWhile_cons_of_neg (by decide)⟩
  | cons b t =>
      exact ⟨List.takeWhile_cons_of_neg (by decide), List.dropWhile_cons_of_neg (by decide)⟩

/-! ### Regex-scan lemmas -/

theorem groupTail_close (fuel : ℕ) (acc post : PyStr) :
    groupTail fuel acc (']' :: post) = some acc := by
  cases fuel <;> rfl

theorem groupTail_comma (f : ℕ) (acc rest : PyStr) :
    groupTail (f + 1) acc (',' :: rest)
      = (if (rest.dropWhile Char.isWhitespace).takeWhile Char.isDigit = [] then none
         else groupTail f
           (acc ++ ',' :: rest.takeWhile Char.isWhitespace
             ++ (rest.dropWhile Char.isWhitespace).takeWhile Char.isDigit)
           ((rest.dropWhile Char.isWhitespace).dropWhile Char.isDigit)) := rfl

theorem groupTail_run :
    ∀ (t : List ℕ) (fuel : ℕ) (acc post : PyStr), t.length ≤ fuel →
      groupTail fuel acc (tailChars t ++ ']' :: post) = some (acc ++ tailChars t)
  | [], fuel, acc, post, _ => by
      rw [show tailChars [] ++ ']' :: post = ']' :: post from rfl, groupTail_close,
        show tailChars [] = [] from rfl, List.append_nil]
  | b :: t, fuel, acc, post, hlen => by
      obtain ⟨f, rfl⟩ : ∃ f, fuel = f + 1 := ⟨fuel - 1, by
        simp only [List.length_cons] at hlen
        omega⟩
      obtain ⟨c, cs, hb⟩ := List.exists_cons_of_ne_nil (natDecimal_ne_nil b)
      have hcd : c.isDigit = true :=
        natDecimal_digits c (by rw [hb]; exact List.mem_cons_self c cs)
      have hcw : c.isWhitespace = false := (isDigit_props c hcd).2.2.2
      have hshape : tailChars (b :: t) ++ ']' :: post
          = ',' :: (' ' :: (natDecimal b ++ (tailChars t ++ ']' :: post))) := by
        show (',' :: ' ' :: natDecimal b ++ tailChars t) ++ ']' :: post = _
        simp [List.append_assoc]
      have hnwX : (natDecimal b ++ (tailChars t ++ ']' :: post)).takeWhile Char.isWhitespace
          = [] := by
        rw [hb, List.cons_append]
        exact List.takeWhile_cons_of_neg (by simp [hcw])
      have hdwX : (natDecimal b ++ (tailChars t ++ ']' :: post)).dropWhile Char.isWhitespace
          = natDecimal b ++ (tailChars t ++ ']' :: post) := by
        rw [hb, List.cons_append]
        exact List.dropWhile_cons_of_neg (by simp [hcw])
      have hws : (' ' :: (natDecimal b ++ (tailChars t ++ ']' :: post))).takeWhile
          Char.isWhitespace = [' '] := by
        rw [List.takeWhile_cons_of_pos (by decide), hnwX]
      have hdrop : (' ' :: (natDecimal b ++ (tailChars t ++ ']' :: post))).dropWhile
          Char.isWhitespace = natDecimal b ++ (tailChars t ++ ']' :: post) := by
        rw [List.dropWhile_cons_of_pos (by decide), hdwX]
      have hds : (natDecimal b ++ (tailChars t ++ ']' :: post)).takeWhile Char.isDigit
          = natDecimal b := by
        rw [takeWhile_append_all _ _ (fun c hc => natDecimal_digits c hc),
          (takeWhile_digit_tail_close t post).1, List.append_nil]
      have hrest2 : (natDecimal b ++ (tailChars t ++ ']' :: post)).dropWhile Char.isDigit
          = tailChars t ++ ']' :: post := by
        rw [dropWhile_append_all _ _ (fun c hc => natDecimal_digits c hc),
          (takeWhile_digit_tail_close t post).2]
      rw [hshape, groupTail_comma, hdrop, hds, hrest2, if_neg (natDecimal_ne_nil b), hws,
        groupTail_run t f _ post (by
          simp only [List.length_cons] at hlen
          omega)]
      simp [tailChars, List.append_assoc]

theorem matchBracketList_cons_ne (fuel : ℕ) (c : Char) (l : PyStr) (hc : c ≠ '[') :
    matchBracketList fuel (c :: l) = none := by
  unfold matchBracketList
  split
  · simp_all
  · rfl

theorem matchBracketList_open (fuel : ℕ) (rest : PyStr) :
    matchBracketList fuel ('[' :: rest)
      = (if rest.takeWhile Char.isDigit = [] then none
         else groupTail fuel (rest.takeWhile Char.isDigit) (rest.dropWhile Char.isDigit)) := rfl

theorem searchBracketList_cons (c : Char) (rest : PyStr) :
    searchBracketList (c :: rest)
      = (match matchBracketList (c :: rest).length (c :: rest) with
         | some g => some g
         | none => searchBracketList rest) := rfl

theorem lbracketSafe_cons_ne (c : Char) (pre : PyStr) (hc : c ≠ '[') :
    lbracketSafe (c :: pre) = lbracketSafe pre := by
  conv_lhs => unfold lbracketSafe
  split <;> simp_all

theorem searchBracketList_append :
    ∀ (pre rest : PyStr), lbracketSafe pre = true →
      searchBracketList (pre ++ rest) = searchBracketList rest
  | [], _, _ => rfl
  | c :: pre, rest, h => by
      by_cases hc : c = '['
      · subst hc
        cases pre with
        | nil => exact absurd h (by decide)
        | cons c2 pre2 =>
            have h' : (!c2.isDigit && lbracketSafe (c2 :: pre2)) = true := by
              simpa [lbracketSafe] using h
            rw [Bool.and_eq_true] at h'
            have hnd : c2.isDigit = false := by
              have := h'.1
              rwa [Bool.not_eq_true'] at this
            have hmatch : matchBracketList ('[' :: (c2 :: (pre2 ++ rest))).length
                ('[' :: (c2 :: (pre2 ++ rest))) = none := by
              rw [matchBracketList_open, if_pos (List.takeWhile_cons_of_neg (by simp [hnd]))]
            rw [show ('[' :: c2 :: pre2) ++ rest = '[' :: (c2 :: (pre2 ++ rest)) from rfl,
              searchBracketList_cons, hmatch]
            exact searchBracketList_append (c2 :: pre2) rest h'.2
      · have hsafe : lbracketSafe pre = true := by
          rwa [lbracketSafe_cons_ne c pre hc] at h
        have hmatch := matchBracketList_cons_ne (c :: (pre ++ rest)).length c (pre ++ rest) hc
        rw [List.cons_append, searchBracketList_cons, hmatch]
        exact searchBracketList_append pre rest hsafe

theorem searchBracketList_at (a : ℕ) (t : List ℕ) (post : PyStr) :
    searchBracketList ('[' :: (natDecimal a ++ (tailChars t ++ ']' :: post)))
      = some (natDecimal a ++ tailChars t) := by
  have hta : (natDecimal a ++ (tailChars t ++ ']' :: post)).takeWhile Char.isDigit
      = natDecimal a := by
    rw [takeWhile_append_all _ _ (fun c hc => natDecimal_digits c hc),
      (takeWhile_digit_tail_close t post).1, List.append_nil]
  have hda : (natDecimal a ++ (tailChars t ++ ']' :: post)).dropWhile Char.isDigit
      = tailChars t ++ ']' :: post := by
    rw [dropWhile_append_all _ _ (fun c hc => natDecimal_digits c hc),
      (takeWhile_digit_tail_close t post).2]
  have hfuel : t.length ≤ ('[' :: (natDecimal a ++ (tailChars t ++ ']' :: post))).length := by
    have := tailChars_length t
    simp only [List.length_cons, List.length_append]
    omega
  have hm : matchBracketList ('[' :: (natDecimal a ++ (tailChars t ++ ']' :: post))).length
      ('[' :: (natDecimal a ++ (tailChars t ++ ']' :: post)))
      = some (natDecimal a ++ tailChars t) := by
    rw [matchBracketList_open, hta, hda, if_neg (natDecimal_ne_nil a),
      groupTail_run t _ _ post hfuel]
  rw [searchBracketList_cons, hm]

/-! ### split/strip/fold lemmas -/

theorem splitOn_run :
    ∀ (t : List ℕ) (x : PyStr), (∀ c ∈ x, (c == ',') = false) →
      (x ++ tailChars t).splitOn ',' = x :: t.map (fun b => ' ' :: natDecimal b)
  | [], x, hx => by
      rw [show tailChars [] = [] from rfl, List.append_nil, List.map_nil]
      exact List.splitOnP_eq_single (· == ',') x (fun c hc => by simp [hx c hc])
  | b :: t, x, hx => by
      show (x ++ (',' :: (' ' :: (natDecimal b ++ tailChars t)))).splitOnP (· == ',') = _
      rw [List.splitOnP_first (· == ',') x (fun c hc => by simp [hx c hc]) ','
        (by simp) (' ' :: (natDecimal b ++ tailChars t))]
      have hrec := splitOn_run t (' ' :: natDecimal b) (by
        intro c hc
        rcases List.mem_cons.mp hc with rfl | hmem
        · decide
        · exact natDecimal_no_comma b c hmem)
      rw [List.map_cons]
      exact congrArg (x :: ·) hrec

theorem joinCommaSpace_map :
    ∀ (t : List ℕ) (x : PyStr), joinCommaSpace (x :: t.map natDecimal) = x ++ tailChars t
  | [], x => by
      rw [show tailChars [] = [] from rfl, List.append_nil, List.map_nil]
      rfl
  | b :: t, x => by
      rw [List.map_cons,
        show joinCommaSpace (x :: natDecimal b :: t.map natDecimal)
          = x ++ ',' :: ' ' :: joinCommaSpace (natDecimal b :: t.map natDecimal) from rfl,
        joinCommaSpace_map t (natDecimal b)]
      simp [tailChars, List.append_assoc]

theorem blacklistFoldStep_strip (s : Finset ℕ) (b : ℕ) (part : PyStr)
    (hstrip : pyStrip part = natDecimal b) :
    blacklistFoldStep s part = insert b s := by
  unfold blacklistFoldStep
  rw [hstrip, if_pos ⟨natDecimal_ne_nil b, by
      rw [List.all_eq_true]
      intro c hc
      simpa using natDecimal_digits c hc⟩,
    decimalValue_natDecimal]

theorem foldl_step_map (t : List ℕ) :
    ∀ s : Finset ℕ,
      (t.map (fun b => ' ' :: natDecimal b)).foldl blacklistFoldStep s = s ∪ t.toFinset := by
  induction t with
  | nil => intro s; simp
  | cons b t ih =>
      intro s
      rw [List.map_cons, List.foldl_cons,
        blacklistFoldStep_strip s b _ (pyStrip_space_cons _ (natDecimal_no_ws b)), ih]
      rw [List.toFinset_cons, Finset.insert_union, Finset.union_insert]

theorem latencyToTierFrom_ge (rtt : ℚ) :
    ∀ (ts : List ℚ) (k : ℕ), k + ts.length ≤ 8 → k ≤ latencyToTierFrom rtt k ts
  | [], k, h => by
      simpa [latencyToTierFrom] using by omega
  | t :: ts, k, h => by
      by_cases hlt : rtt < t
      · simp [latencyToTierFrom, hlt]
      · have hrec := latencyToTierFrom_ge rtt ts (k + 1) (by
          simp only [List.length_cons] at h
          omega)
        simp only [latencyToTierFrom, hlt, if_false]
        omega

theorem latencyToTierFrom_le (rtt : ℚ) :
    ∀ (ts : List ℚ) (k : ℕ), k + ts.length ≤ 8 → latencyToTierFrom rtt k ts ≤ 8
  | [], _, _ => le_refl 8
  | t :: ts, k, h => by
      by_cases hlt : rtt < t
      · simp only [latencyToTierFrom, hlt, if_true]
        simp only [List.length_cons] at h
        omega
      · have hrec := latencyToTierFrom_le rtt ts (k + 1) (by
          simp only [List.length_cons] at h
          omega)
        simpa [latencyToTierFrom, hlt] using hrec

theorem latencyToTierFrom_mono {r1 r2 : ℚ} (h12 : r1 ≤ r2) :
    ∀ (ts : List ℚ) (k : ℕ), k + ts.length ≤ 8 →
      latencyToTierFrom r1 k ts ≤ latencyToTierFrom r2 k ts
  | [], _, _ => le_refl 8
  | t :: ts, k, h => by
      by_cases h2 : r2 < t
      · have h1 : r1 < t := lt_of_le_of_lt h12 h2
        simp [latencyToTierFrom, h1, h2]
      · by_cases h1 : r1 < t
        · simp only [latencyToTierFrom, h1, h2, if_true, if_false]
          have := latencyToTierFrom_ge r2 ts (k + 1) (by
            simp only [List.length_cons] at h
            omega)
          omega
        · have hrec := latencyToTierFrom_mono h12 ts (k + 1) (by
            simp only [List.length_cons] at h
            omega)
          simpa [latencyToTierFrom, h1, h2] using hrec

theorem latency_to_tier_eq_spec (r : ℚ) : latency_to_tier r = latencyTierSpec r := by
  simp [latency_to_tier, latencyThresholds, latencyToTierFrom, latencyTierSpec]

/-- C6: `latency_to_tier` is monotonic and bounded: for all RTTs
`r1 ≤ r2`, `tier(r1) ≤ tier(r2)`; the tier is the index of the first
threshold of `[2.7, 7.3, 20, 55, 148, 403, 1097, 2981]` strictly greater
than the RTT; any RTT ≥ 2981 maps to tier 8; and the result always lies in
[0, 8]. -/
theorem latency_to_tier_monotone_bounded :
    (∀ r1 r2 : ℚ, r1 ≤ r2 → latency_to_tier r1 ≤ latency_to_tier r2) ∧
    (∀ r : ℚ, latency_to_tier r = latencyTierSpec r) ∧
    (∀ r : ℚ, 2981 ≤ r → latency_to_tier r = 8) ∧
    (∀ r : ℚ, latency_to_tier r ≤ 8) := by
  refine ⟨fun r1 r2 h => ?_, latency_to_tier_eq_spec, fun r h => ?_, fun r => ?_⟩
  · exact latencyToTierFrom_mono h latencyThresholds 0 (by simp [latencyThresholds])
  · rw [latency_to_tier_eq_spec]
    unfold latencyTierSpec
    rw [if_neg (by linarith), if_neg (by linarith), if_neg (by linarith),
      if_neg (by linarith), if_neg (by linarith), if_neg (by linarith),
      if_neg (by linarith), if_neg (by linarith)]
  · exact latencyToTierFrom_le r latencyThresholds 0 (by simp [latencyThresholds])

/-- Witness for `latency_to_tier_monotone_bounded` at RTTs 5, 30 and 3000. -/
theorem latency_to_tier_monotone_bounded_witness :
    latency_to_tier 5 ≤ latency_to_tier 30 ∧ latency_to_tier 3000 = 8 :=
  ⟨latency_to_tier_monotone_bounded.1 5 30 (by norm_num),
   latency_to_tier_monotone_bounded.2.2.1 3000 (by norm_num)⟩

/-- C7: for a peer with an existing `last_rtt = old`, processing a
successful probe of `measured` ms stores
`alpha * measured + (1 - alpha) * old` with `alpha = 0.3` as the new
`last_rtt`, re-derives the tier from it, and invokes the update callback
exactly when the newly derived tier differs from the peer's previous
tier. -/
theorem probe_ewma_tier_callback (peer : PeerInfo) (old measured : ℚ)
    (h : peer.lastRtt = some old) :
    ewmaAlpha = 3/10 ∧
    (processProbeResult true peer measured).1.lastRtt
      = some (ewmaAlpha * measured + (1 - ewmaAlpha) * old) ∧
    (processProbeResult true peer measured).1.lastTier
      = some (latency_to_tier (ewmaAlpha * measured + (1 - ewmaAlpha) * old)) ∧
    ((processProbeResult true peer measured).2 ≠ none ↔
      peer.lastTier ≠ some (latency_to_tier (ewmaAlpha * measured + (1 - ewmaAlpha) * old))) ∧
    (processProbeResult true peer measured).2
      = if peer.lastTier ≠ some (latency_to_tier (ewmaAlpha * measured + (1 - ewmaAlpha) * old))
        then some ⟨peer.asn, latency_to_tier (ewmaAlpha * measured + (1 - ewmaAlpha) * old),
                   ewmaAlpha * measured + (1 - ewmaAlpha) * old⟩
        else none := by
  refine ⟨rfl, ?_, ?_, ?_, ?_⟩
  · simp [processProbeResult, h]
  · simp [processProbeResult, h]
  · by_cases hne : peer.lastTier
        = some (latency_to_tier (ewmaAlpha * measured + (1 - ewmaAlpha) * old)) <;>
      simp [processProbeResult, h, hne]
  · by_cases hne : peer.lastTier
        = some (latency_to_tier (ewmaAlpha * measured + (1 - ewmaAlpha) * old)) <;>
      simp [processProbeResult, h, hne]

/-- Witness for `probe_ewma_tier_callback`: a peer with stored
`last_rtt = 5 ms, tier = 1` records a probe of 30 ms; the EWMA is 12.5 ms,
the tier becomes 2, and the callback fires once with `(asn, 2, 12.5)`; a
follow-up probe of 32 ms keeps tier 2 and fires no callback. -/
theorem probe_ewma_tier_callback_witness :
    (processProbeResult true ⟨4242420337, "198.51.100.7", some 5, some 1, 7, 0⟩ 30).1.lastRtt
      = some (ewmaAlpha * 30 + (1 - ewmaAlpha) * 5) ∧
    (processProbeResult true ⟨4242420337, "198.51.100.7", some 5, some 1, 7, 0⟩ 30).1.lastRtt
      = some (25/2) ∧
    (processProbeResult true ⟨4242420337, "198.51.100.7", some 5, some 1, 7, 0⟩ 30).2
      = some ⟨4242420337, 2, 25/2⟩ ∧
    (processProbeResult true
      (processProbeResult true ⟨4242420337, "198.51.100.7", some 5, some 1, 7, 0⟩ 30).1 32).2
      = none :=
  ⟨(probe_ewma_tier_callback ⟨4242420337, "198.51.100.7", some 5, some 1, 7, 0⟩ 5 30 rfl).2.1,
   by norm_num [processProbeResult, ewmaAlpha, latency_to_tier, latencyThresholds,
     latencyToTierFrom],
   by norm_num [processProbeResult, ewmaAlpha, latency_to_tier, latencyThresholds,
     latencyToTierFrom],
   by norm_num [processProbeResult, ewmaAlpha, latency_to_tier, latencyThresholds,
     latencyToTierFrom]⟩

/-- C3 counterexample: applying over the freshly initialized empty state
does record a `rollback_snapshot` (with `previous_hash = None`), because
`_empty_state`'s `applied_config` is the truthy dictionary
`{"peers": []}`. -/
theorem rollback_snapshot_recorded_on_empty_state :
    (update_applied_config (emptyState ℕ) [] "v1").rollbackSnapshot = some ⟨none⟩ ∧
    (update_applied_config (emptyState ℕ) [] "v1").rollbackSnapshot ≠ none := by
  constructor
  · rfl
  · simp [update_applied_config, emptyState]

/-- C3 (amended): `update_applied_config` captures the previously stored
hash into `rollback_snapshot` exactly when the prior state's
`applied_config` field is a truthy (non-empty) dictionary; the freshly
initialized empty state has `applied_config = {"peers": []}`, which is
truthy, so even the first apply over it records a snapshot (carrying
`previous_hash = None`); no snapshot is recorded only when the field is
missing or an empty dictionary. -/
theorem update_applied_config_rollback {P : Type} (state : AgentState P)
    (peers : List P) (h : String) :
    (update_applied_config state peers h).rollbackSnapshot
      = (if state.appliedConfig.isSome then some ⟨state.configVersionHash⟩
         else state.rollbackSnapshot) ∧
    (update_applied_config state peers h).configVersionHash = some h ∧
    (update_applied_config state peers h).appliedConfig = some ⟨peers⟩ ∧
    (emptyState P).appliedConfig.isSome = true := by
  by_cases hsome : state.appliedConfig.isSome <;>
    simp [update_applied_config, emptyState, hsome]

/-! ### Debounced-reload lemmas -/

/-- The time of the last `reload()` call in a nonempty call sequence. -/
def lastCall (t : ℚ) : List ℚ → ℚ
  | [] => t
  | t' :: ts => lastCall t' ts

theorem runReloadTrace_pending (delay : ℚ) :
    ∀ (ts : List ℚ) (t : ℚ),
      List.Chain (fun a b => a ≤ b ∧ b < a + delay) t ts →
      runReloadTrace delay ts (some (t + delay)) = [lastCall t ts + delay]
  | [], t, _ => by simp [runReloadTrace, lastCall]
  | t' :: ts, t, h => by
      rcases List.chain_cons.mp h with ⟨⟨_, hlt⟩, hchain⟩
      have hnot : ¬ t + delay ≤ t' := not_le.mpr hlt
      rw [show runReloadTrace delay (t' :: ts) (some (t + delay))
            = runReloadTrace delay ts (some (t' + delay)) by
          simp [runReloadTrace, hnot]]
      rw [runReloadTrace_pending delay ts t' hchain]
      rfl

/-- C2: starting from an idle reloader, `N ≥ 1` calls to `reload()` at
ascending times, each arriving strictly before the previously scheduled
timer fires, produce exactly one `birdc configure` invocation, and it fires
`delay` after the last call (each call having cancelled the previous
pending timer); the default `coalesce_delay` is 2 seconds. -/
theorem reload_coalescing (delay : ℚ) (t : ℚ) (ts : List ℚ)
    (hchain : List.Chain (fun a b => a ≤ b ∧ b < a + delay) t ts) :
    birdConfigureTimes delay (t :: ts) = [lastCall t ts + delay] ∧
    (birdConfigureTimes delay (t :: ts)).length = 1 ∧
    coalesceDelay = 2 := by
  have h1 : birdConfigureTimes delay (t :: ts) = [lastCall t ts + delay] := by
    unfold birdConfigureTimes
    rw [show runReloadTrace delay (t :: ts) none
          = runReloadTrace delay ts (some (t + delay)) from rfl]
    exact runReloadTrace_pending delay ts t hchain
  exact ⟨h1, by rw [h1]; rfl, rfl⟩

/-- Witness for `reload_coalescing`: five `reload()` calls at 100 ms
spacing produce exactly one `configure`, 2 s after the last call. -/
theorem reload_coalescing_witness :
    birdConfigureTimes coalesceDelay [0, 1/10, 2/10, 3/10, 4/10] = [12/5] ∧
    (birdConfigureTimes coalesceDelay [0, 1/10, 2/10, 3/10, 4/10]).length = 1 := by
  have h := reload_coalescing coalesceDelay 0 [1/10, 2/10, 3/10, 4/10]
    (by norm_num [List.chain_cons, coalesceDelay])
  refine ⟨?_, by rw [h.1]; rfl⟩
  rw [h.1]
  norm_num [lastCall, coalesceDelay]

/-- C9: if the node id resolved from configuration and registration is
unset or outside [1, 62], startup exits with code 1 before performing any
kernel mutation; and whenever startup does proceed, the identity it uses is
in range and came either from the configuration file or from the control
plane's registration response — never from a substituted default. -/
theorem invalid_node_id_aborts_startup (cfg : Option ℤ) (reg : Option (Option ℤ))
    (h : ∀ v : ℤ, resolveNodeId cfg reg = some v → ¬(1 ≤ v ∧ v ≤ 62)) :
    mainStartup cfg reg = (some 1, []) ∧
    (∀ cfg' reg' : _, (mainStartup cfg' reg').1 = none →
      ∃ v : ℤ, resolveNodeId cfg' reg' = some v ∧ 1 ≤ v ∧ v ≤ 62 ∧
        (cfg' = some v ∨ reg' = some (some v))) := by
  constructor
  · unfold mainStartup
    rcases hres : resolveNodeId cfg reg with _ | v
    · simp [nodeIdRejected]
    · have hv := h v hres
      have hrej : nodeIdRejected (some v) = true := by
        simp only [nodeIdRejected, Bool.or_eq_true, decide_eq_true_eq]
        omega
      simp [hrej]
  · intro cfg' reg' hrun
    unfold mainStartup at hrun
    rcases hres : resolveNodeId cfg' reg' with _ | v
    · rw [hres] at hrun
      simp [nodeIdRejected] at hrun
    · rw [hres] at hrun
      by_cases hrej : nodeIdRejected (some v) = true
      · rw [if_pos hrej] at hrun
        simp at hrun
      · have hrange : 1 ≤ v ∧ v ≤ 62 := by
          simp only [nodeIdRejected, Bool.or_eq_true, decide_eq_true_eq] at hrej
          omega
        refine ⟨v, rfl, hrange.1, hrange.2, ?_⟩
        rcases reg' with _ | cp
        · left
          simpa [resolveNodeId] using hres
        · rcases cp with _ | cp
          · left
            simpa [resolveNodeId] using hres
          · simp only [resolveNodeId] at hres
            by_cases hcp : cp ≠ 0 ∧ 1 ≤ cp ∧ cp ≤ 62
            · rw [if_pos hcp] at hres
              right
              rw [Option.some.injEq] at hres
              rw [hres]
            · rw [if_neg hcp] at hres
              exact Or.inl hres

/-- Witness for `invalid_node_id_aborts_startup`: config declares
`node_id = 99` and registration fails; startup exits 1 with no kernel
mutation. -/
theorem invalid_node_id_aborts_startup_witness :
    mainStartup (some 99) none = (some 1, []) :=
  (invalid_node_id_aborts_startup (some 99) none
    (fun v hv => by
      simp only [resolveNodeId] at hv
      rw [Option.some.injEq] at hv
      omega)).1

/-- C1 counterexample: for the default overlay prefixes and `node_id = 4`,
the broader IPv4 `/26` prefix IS one of the addresses `setup_loopback`
installs on the dummy interface (the first entry of its `addresses` list),
refuting "the broader overlay prefix is never added to the interface's
address list". -/
theorem loopback_installs_ipv4_prefix :
    setupLoopbackAddresses "172.22.188.0/26".toList "fd00:4242:7777::/48".toList 4
      = some ["172.22.188.0/26".toList, "172.22.188.4/32".toList,
              "fd00:4242:7777::4/128".toList] ∧
    "172.22.188.0/26".toList ∈
      (setupLoopbackAddresses "172.22.188.0/26".toList "fd00:4242:7777::/48".toList 4).getD
        [] := by
  decide

/-- C1 (amended): for every valid `node_id`, configuring the loopback
interface installs exactly three addresses — the full IPv4 overlay prefix
(`/26`), the node-specific `/32` IPv4 address, and the node-specific `/128`
IPv6 address — and the broader IPv6 `/48` prefix is never added. -/
theorem loopback_addresses (n : ℕ) (h1 : 1 ≤ n) (h2 : n ≤ 62) :
    setupLoopbackAddresses "172.22.188.0/26".toList "fd00:4242:7777::/48".toList n
      = some ["172.22.188.0/26".toList,
              "172.22.188.".toList ++ natDecimal n ++ "/32".toList,
              "fd00:4242:7777::".toList ++ natDecimal n ++ "/128".toList] ∧
    "fd00:4242:7777::/48".toList ∉
      (setupLoopbackAddresses "172.22.188.0/26".toList "fd00:4242:7777::/48".toList n).getD
        [] := by
  interval_cases n <;> decide

/-- Witness for `loopback_addresses` at `node_id = 4`. -/
theorem loopback_addresses_witness :
    setupLoopbackAddresses "172.22.188.0/26".toList "fd00:4242:7777::/48".toList 4
      = some ["172.22.188.0/26".toList,
              "172.22.188.".toList ++ natDecimal 4 ++ "/32".toList,
              "fd00:4242:7777::".toList ++ natDecimal 4 ++ "/128".toList] :=
  (loopback_addresses 4 (by decide) (by decide)).1

/-- C8: blacklist round trip.  For every finite set `S` of ASNs, including
the empty set, serializing `S` with `save_blacklist` into the generated
BIRD policy-function file and re-parsing it with `load_blacklist` returns
exactly `S`: no ASN is lost and none is added. -/
theorem blacklist_round_trip (S : Finset ℕ) :
    loadBlacklistFromContent (saveBlacklistContent S) = S := by
  by_cases hS : S = ∅
  · subst hS
    decide
  · obtain ⟨a, t, hat⟩ : ∃ a t, S.sort (· ≤ ·) = a :: t := by
      rcases hsort : S.sort (· ≤ ·) with _ | ⟨a, t⟩
      · exfalso
        apply hS
        have h1 := Finset.sort_toFinset (· ≤ ·) S
        rw [hsort] at h1
        simpa using h1.symm
      · exact ⟨a, t, rfl⟩
    have hS2 : (a :: t).toFinset = S := by
      rw [← hat]
      exact Finset.sort_toFinset (· ≤ ·) S
    have hcontent : saveBlacklistContent S
        = blacklistHeader ++ ("    return bgp_path ~ [= * ".toList ++
            ('[' :: (natDecimal a ++ (tailChars t ++
              (']' :: (" * =];\n".toList ++ "\x7d\n".toList)))))) := by
      unfold saveBlacklistContent asnListChars
      rw [if_neg hS, hat, List.map_cons, joinCommaSpace_map]
      rw [show ("    return bgp_path ~ [= * [".toList : PyStr)
            = "    return bgp_path ~ [= * ".toList ++ ['['] from by decide]
      rw [show ("] * =];\n".toList : PyStr) = ']' :: " * =];\n".toList from by decide]
      simp [List.append_assoc]
    have hsearch : searchBracketList (saveBlacklistContent S)
        = some (natDecimal a ++ tailChars t) := by
      rw [hcontent, searchBracketList_append blacklistHeader _ (by decide),
        searchBracketList_append ("    return bgp_path ~ [= * ".toList) _ (by decide),
        searchBracketList_at]
    unfold loadBlacklistFromContent
    rw [hsearch]
    show ((natDecimal a ++ tailChars t).splitOn ',').foldl blacklistFoldStep ∅ = S
    rw [splitOn_run t (natDecimal a) (natDecimal_no_comma a), List.foldl_cons,
      blacklistFoldStep_strip ∅ a _ (pyStrip_no_ws _ (natDecimal_no_ws a)),
      foldl_step_map t (insert a ∅), ← hS2]
    simp [List.toFinset_cons, Finset.insert_eq]

end MoenetAgent
